import Mathlib

/-!
Shallow embedding of the C3D viewer (`c3d_viewer.py`) in Lean 4.

Python floats are modelled as rationals (ℚ); Python 2 integer division
(`/` on ints) as Nat/Int floor division; `collections.deque` with a
`maxlen` as a list that keeps only the most recent `maxlen` elements.
`math.exp` (used only in the right-button zoom branch) is kept abstract
as a parameter `mexp : ℚ → ℚ`.  A Python exception (IndexError on a
visibility toggle out of range, StopIteration from an exhausted frame
iterator, `sys.exit`) is modelled by `Option`: `none` ends the session.
-/

namespace C3D

/-- A marker position as delivered by the frame source: a list of
coordinates (the viewer stores `point[:3]`). -/
abbrev Point := List ℚ

/-- The last `n` elements of a list, in order.  This is the contents of a
Python `collections.deque(l, n)`: the constructor iterates `l`, appending
and evicting from the head once size exceeds `n`. -/
def takeLast (n : ℕ) (l : List α) : List α := l.drop (l.length - n)

/-- One `deque.append` on a deque with `maxlen`: insert at the tail and
evict from the head while the size exceeds `maxlen`
(`trail.append(point)` in `Viewer.handle_idle`). -/
def dequeAppend (maxlen : ℕ) (t : List Point) (x : Point) : List Point :=
  takeLast maxlen (t ++ [x])

/-- GLUT mouse buttons. -/
inductive MouseButton where
  | left
  | middle
  | right
  deriving DecidableEq, Repr

/-- The mutable state of `Viewer`: frame pacing, trails, visibility and
camera (`Viewer.__init__`).  `mouseButton` is `self._mouse_button`: the
pressed button together with the Ctrl and Alt modifier flags. -/
structure ViewerState where
  frameRate : ℚ
  maxlen : ℕ
  visible : List Bool
  trails : List (List Point)
  theta : ℚ
  phi : ℚ
  rho : ℚ
  paused : Bool
  lastTime : ℚ
  mouseButton : Option (MouseButton × Bool × Bool)
  width : ℕ
  height : ℕ
  dTheta : ℚ
  dPhi : ℚ
  dRho : ℚ
  deriving DecidableEq, Repr

/-- Model of `Viewer._reset_trails`: every trail is rebuilt as
`collections.deque(t, self.maxlen)`, keeping the most recent `maxlen`
points of `t`. -/
def reset_trails (s : ViewerState) : ViewerState :=
  { s with trails := s.trails.map (fun t => takeLast s.maxlen t) }

/-- Model of `Viewer.__init__`: stores the frame rate as reported by the reader
(no validation), starts with `maxlen = 1`, all markers visible, empty
trails, camera `theta = 350, phi = 300, rho = 1`, not paused,
`_last_time = 0`, window size 800 times 600 and neutral drag
velocities. -/
def Viewer.init (frameRate : ℚ) (numPoints : ℕ) : ViewerState :=
  reset_trails
    { frameRate := frameRate
      maxlen := 1
      visible := List.replicate numPoints true
      trails := List.replicate numPoints []
      theta := 350
      phi := 300
      rho := 1
      paused := false
      lastTime := 0
      mouseButton := none
      width := 800
      height := 600
      dTheta := 0
      dPhi := 0
      dRho := 1 }

/-- Model of `Viewer.handle_reshape`: record the new window size. -/
def handle_reshape (s : ViewerState) (w h : ℕ) : ViewerState :=
  { s with width := w, height := h }

/-- The modifier remap at the top of `Viewer.handle_mouse_movement`: a
left button held with Ctrl becomes middle, then one held with Alt
becomes right (the Alt check runs second, so Alt wins when both
modifiers are down); other buttons are unchanged. -/
def remapButton (b0 : MouseButton) (ctrl alt : Bool) : MouseButton :=
  if b0 = MouseButton.left then
    if alt then MouseButton.right
    else if ctrl then MouseButton.middle
    else b0
  else b0

/-- Model of `Viewer.handle_mouse_movement`.  Reads `self._mouse_button` (a crash
if it is `None`), remaps the button by the held modifiers, and derives
drag velocities from the offset of the cursor from the window centre
`(width / 2, height / 2)` (Python 2 integer division).  `mexp` stands
for `math.exp`. -/
def handle_mouse_movement (mexp : ℚ → ℚ) (s : ViewerState) (x y : ℤ) :
    Option ViewerState :=
  match s.mouseButton with
  | none => none
  | some (b0, ctrl, alt) =>
      let b := remapButton b0 ctrl alt
      let cx : ℚ := ((s.width / 2 : ℕ) : ℚ)
      let cy : ℚ := ((s.height / 2 : ℕ) : ℚ)
      let s1 :=
        if b = MouseButton.left then
          { s with dPhi := 5 * ((y : ℚ) - cy) / (s.height : ℚ)
                   dTheta := 5 * ((x : ℚ) - cx) / (s.width : ℚ) }
        else s
      let s2 :=
        if b = MouseButton.right then
          { s1 with dRho := mexp (((y : ℚ) - cy) / (s.height : ℚ) / (13 / 10)) }
        else s1
      some s2

/-- Whether a GLUT mouse-button event is a press or a release. -/
inductive ButtonState where
  | up
  | down
  deriving DecidableEq, Repr

/-- Model of `Viewer.handle_mouse_button`: on release, clear the stored button and
reset the drag velocities to neutral; on press, store the button with its
modifiers and immediately run the motion handler at the press position. -/
def handle_mouse_button (mexp : ℚ → ℚ) (s : ViewerState) (b : MouseButton)
    (ctrl alt : Bool) (st : ButtonState) (x y : ℤ) : Option ViewerState :=
  match st with
  | .up => some { s with mouseButton := none, dTheta := 0, dPhi := 0, dRho := 1 }
  | .down => handle_mouse_movement mexp
      { s with mouseButton := some (b, ctrl, alt) } x y

/-- Keyboard characters the viewer reacts to.  A digit key carries its
value 0 to 9; any other character is `other` (ignored by the handler). -/
inductive Key where
  | q
  | digit (d : Fin 10)
  | p
  | plus
  | minus
  | other
  deriving DecidableEq

/-- Model of `self.visible[i] ^= True`: flip the flag at index `i`; a Python list
index out of range raises IndexError, modelled as `none`. -/
def toggleVisible (v : List Bool) (i : ℕ) : Option (List Bool) :=
  match v.get? i with
  | none => none
  | some b => some (v.set i (xor b true))

/-- Model of `Viewer.handle_keypress`: `q` exits, a digit key flips that marker
visibility flag, `p` toggles pause, `+` and `=` double `maxlen` and
rebuild the trails, `-` and underscore halve it with floor 1 and rebuild
the trails. -/
def handle_keypress (s : ViewerState) (k : Key) : Option ViewerState :=
  match k with
  | .q => none
  | .digit d => (toggleVisible s.visible d.val).map (fun v => { s with visible := v })
  | .p => some { s with paused := xor s.paused true }
  | .plus => some (reset_trails { s with maxlen := s.maxlen * 2 })
  | .minus => some (reset_trails { s with maxlen := max 1 (s.maxlen / 2) })
  | .other => some s

/-- GLUT special keys handled by the viewer. -/
inductive SpecialKey where
  | pageUp
  | pageDown
  | up
  | down
  | left
  | right
  deriving DecidableEq

/-- Model of `Viewer.handle_special_keypress`: one-shot camera nudges. -/
def handle_special_keypress (s : ViewerState) (k : SpecialKey) : ViewerState :=
  match k with
  | .pageUp => { s with rho := s.rho / (3 / 2) }
  | .pageDown => { s with rho := s.rho * (3 / 2) }
  | .up => { s with phi := s.phi + 5 }
  | .down => { s with phi := s.phi - 5 }
  | .left => { s with theta := s.theta - 5 }
  | .right => { s with theta := s.theta + 5 }

/-- The camera integration at the top of `Viewer.handle_idle`:
`theta += d_theta; phi += d_phi; rho /= d_rho`. -/
def camStep (s : ViewerState) : ViewerState :=
  { s with theta := s.theta + s.dTheta
           phi := s.phi + s.dPhi
           rho := s.rho / s.dRho }

/-- The trail update in `Viewer.handle_idle`:
`for trail, point in zip(self._trails, points): trail.append(point[:3])`.
`izip` stops at the shorter sequence, so trails beyond `points.length`
are left untouched. -/
def appendFrame (maxlen : ℕ) (trails : List (List Point)) (points : List Point) :
    List (List Point) :=
  List.zipWith (fun t p => dequeAppend maxlen t (p.take 3)) trails points
    ++ trails.drop points.length

/-- The outcome of one `handle_idle` tick: the new state, whether a frame
was pulled from the reader, and how long the thread slept (if it did). -/
structure IdleResult where
  state : ViewerState
  pulled : Bool
  slept : Option ℚ
  deriving DecidableEq, Repr

/-- Model of `Viewer.handle_idle`.  Always integrates the camera first; when not
paused, computes `elapsed = now - self._last_time` and, if
`elapsed > 1 / frame_rate`, pulls the next frame (`frame = none` models
an exhausted reader raising StopIteration: session over), appends its
points to the trails and stores `now` as `_last_time`; otherwise sleeps
for `1 / frame_rate - elapsed`.  The second `time.time()` call made
after the pull is modelled as the same instant `now`.  The camera
integration touches only `theta`, `phi` and `rho`, so the later reads of
`paused`, `_last_time`, `_frame_rate` and the trails are written against
`s` directly. -/
def handle_idle (s : ViewerState) (now : ℚ) (frame : Option (List Point)) :
    Option IdleResult :=
  if s.paused then some ⟨camStep s, false, none⟩
  else if now - s.lastTime > 1 / s.frameRate then
    match frame with
    | none => none
    | some points =>
        some ⟨{ camStep s with trails := appendFrame s.maxlen s.trails points
                               lastTime := now }, true, none⟩
  else some ⟨camStep s, false, some (1 / s.frameRate - (now - s.lastTime))⟩

/-- One external event delivered by the GLUT loop.  An `idle` event
carries the current wall-clock time and the next frame of the reader
(`none` when the reader is exhausted). -/
inductive Event where
  | keypress (k : Key)
  | special (k : SpecialKey)
  | mouseDown (b : MouseButton) (ctrl alt : Bool) (x y : ℤ)
  | mouseUp
  | mouseMove (x y : ℤ)
  | reshape (w h : ℕ)
  | idle (now : ℚ) (frame : Option (List Point))

/-- Dispatch one event to its handler; `none` means the session ended
(exit, an exception, or frame-source exhaustion). -/
def step (mexp : ℚ → ℚ) (e : Event) (s : ViewerState) : Option ViewerState :=
  match e with
  | .keypress k => handle_keypress s k
  | .special k => some (handle_special_keypress s k)
  | .mouseDown b ctrl alt x y => handle_mouse_button mexp s b ctrl alt .down x y
  | .mouseUp => handle_mouse_button mexp s .left false false .up 0 0
  | .mouseMove x y => handle_mouse_movement mexp s x y
  | .reshape w h => some (handle_reshape s w h)
  | .idle now frame => (handle_idle s now frame).map IdleResult.state

/-- Run a sequence of events from a state, stopping at the first event
that ends the session. -/
def run (mexp : ℚ → ℚ) (es : List Event) (s : ViewerState) : Option ViewerState :=
  match es with
  | [] => some s
  | e :: rest =>
      match step mexp e s with
      | none => none
      | some s1 => run mexp rest s1

/-- The marker-submission loop of `Viewer.render_model`: every trail is
enumerated and submitted unless its visibility flag is off
(`if not self.visible[i]: continue`).  Reading `visible[i]` past the end
of the list would raise, modelled by the length guard. -/
def renderMarkers (s : ViewerState) : Option (List (ℕ × List Point)) :=
  if s.trails.length ≤ s.visible.length then
    some ((s.trails.enum).filter (fun ip => s.visible.getD ip.1 false))
  else none

/-- A viewport rectangle `(x, y, width, height)` as passed to
`glViewport`. -/
structure Rect where
  x : ℕ
  y : ℕ
  w : ℕ
  h : ℕ
  deriving DecidableEq, Repr

/-- The value `w = int(2 * self._width / 3.0)` in `Viewer.handle_draw`. -/
def leftWidth (W : ℕ) : ℕ := 2 * W / 3

/-- The value `h = int(self._height / 3.0)` in `Viewer.handle_draw`. -/
def thirdHeight (H : ℕ) : ℕ := H / 3

/-- The perspective viewport `glViewport(0, 0, w, self._height)`. -/
def perspectiveViewport (W H : ℕ) : Rect := ⟨0, 0, leftWidth W, H⟩

/-- The three orthographic viewports of `Viewer.handle_draw`:
`glViewport(w, 0, w / 2, h)`, `glViewport(w, h, w / 2, h)` and
`glViewport(w, 2 * h, w / 2, h)` (`w / 2` is Python 2 integer
division). -/
def orthoViewports (W H : ℕ) : List Rect :=
  let w := leftWidth W
  let h := thirdHeight H
  [⟨w, 0, w / 2, h⟩, ⟨w, h, w / 2, h⟩, ⟨w, 2 * h, w / 2, h⟩]

/-- The abstract resize operation of the spec, as realised by the code:
set `maxlen` to the clamped capacity and rebuild every trail
(`_reset_trails`).  Both keyboard paths are instances: `+` doubles
`maxlen` (already at least 1, so the clamp is the identity) and `-` sets
`maxlen = max(1, maxlen / 2)`. -/
def resize (s : ViewerState) (k : ℕ) : ViewerState :=
  reset_trails { s with maxlen := max 1 k }

/-- Replace the visibility mask of a state, leaving every other field
unchanged.  Used to state that the trails are independent of the
mask. -/
def visReplace (s : ViewerState) (v : List Bool) : ViewerState :=
  { s with visible := v }

/-- A two-marker state with non-trivial trails, used to exercise the
resize theorems on concrete data. -/
def sampleTrailState : ViewerState :=
  { Viewer.init 30 2 with
      maxlen := 2
      trails := [[[1, 2, 3], [4, 5, 6]], [[7, 8, 9]]] }

/-- A one-marker state whose window height is odd, with a plain left
button held: exercises the integer-division window centre. -/
def oddHeightState : ViewerState :=
  { Viewer.init 1 1 with
      height := 601
      mouseButton := some (MouseButton.left, false, false) }

/-- A one-marker state with the default 800 times 600 window and a plain
left button held. -/
def centerDemoState : ViewerState :=
  { Viewer.init 1 1 with mouseButton := some (MouseButton.left, false, false) }

/-- A two-marker state whose second marker is hidden, each marker with
one trail point already recorded. -/
def hiddenDemoState : ViewerState :=
  { Viewer.init 1 2 with
      visible := [true, false]
      trails := [[[7, 8, 9]], [[10, 11, 12]]] }

/-- A paused one-marker state with ongoing drag velocities. -/
def pausedDemoState : ViewerState :=
  { Viewer.init 1 1 with paused := true, dTheta := 2, dPhi := 3, dRho := 2 }

/-! Helper lemmas about `takeLast`. -/

theorem takeLast_length (n : ℕ) (l : List α) :
    (takeLast n l).length = min n l.length := by
  simp only [takeLast, List.length_drop]
  omega

theorem takeLast_suffix (n : ℕ) (l : List α) : takeLast n l <:+ l :=
  List.drop_suffix _ _

theorem takeLast_of_length_le {n : ℕ} {l : List α} (h : l.length ≤ n) :
    takeLast n l = l := by
  simp [takeLast, Nat.sub_eq_zero_of_le h]

theorem takeLast_append_takeLast (m : ℕ) (l r : List α) :
    takeLast m (takeLast m l ++ r) = takeLast m (l ++ r) := by
  simp only [takeLast, List.drop_append_eq_append_drop, List.length_append,
    List.length_drop, List.drop_drop]
  congr 2 <;> omega

theorem foldl_dequeAppend (m : ℕ) (b : List Point) (xs : List Point)
    (hb : b.length ≤ m) :
    xs.foldl (fun t p => dequeAppend m t p) b = takeLast m (b ++ xs) := by
  induction xs generalizing b with
  | nil => simpa using (takeLast_of_length_le hb).symm
  | cons x rest ih =>
      have hlen : (dequeAppend m b x).length ≤ m := by
        simp only [dequeAppend, takeLast_length]
        omega
      calc (x :: rest).foldl (fun t p => dequeAppend m t p) b
          = rest.foldl (fun t p => dequeAppend m t p) (dequeAppend m b x) := rfl
        _ = takeLast m (dequeAppend m b x ++ rest) := ih _ hlen
        _ = takeLast m ((b ++ [x]) ++ rest) := takeLast_append_takeLast m (b ++ [x]) rest
        _ = takeLast m (b ++ x :: rest) := by simp

/-- C1.  For every trail buffer capacity `m` and every sequence `xs` of
appended points, the buffer obtained by performing the appends in order
on an initially empty deque never exceeds `m` elements, and it is
exactly the most recently appended `min m xs.length` points in insertion
order (a suffix of the append sequence). -/
theorem trail_buffer_fifo (m : ℕ) (xs : List Point) :
    (xs.foldl (fun t p => dequeAppend m t p) []).length ≤ m ∧
    xs.foldl (fun t p => dequeAppend m t p) [] = takeLast m xs ∧
    xs.foldl (fun t p => dequeAppend m t p) [] <:+ xs := by
  have h : xs.foldl (fun t p => dequeAppend m t p) [] = takeLast m xs := by
    simpa using foldl_dequeAppend m [] xs (by simp)
  refine ⟨?_, h, ?_⟩
  · rw [h, takeLast_length]; omega
  · rw [h]; exact takeLast_suffix m xs

/-! Helper lemmas about the state operations. -/

theorem Viewer_init_eq (f : ℚ) (n : ℕ) :
    Viewer.init f n =
      { frameRate := f, maxlen := 1, visible := List.replicate n true
        trails := List.replicate n [], theta := 350, phi := 300, rho := 1
        paused := false, lastTime := 0, mouseButton := none, width := 800
        height := 600, dTheta := 0, dPhi := 0, dRho := 1 } := by
  simp [Viewer.init, reset_trails, takeLast]

theorem handle_idle_of_paused {s : ViewerState} (now : ℚ)
    (fr : Option (List Point)) (hp : s.paused = true) :
    handle_idle s now fr = some ⟨camStep s, false, none⟩ := by
  unfold handle_idle
  rw [if_pos hp]

theorem handle_idle_pull {s : ViewerState} {now : ℚ} (pts : List Point)
    (hp : s.paused = false) (hgt : now - s.lastTime > 1 / s.frameRate) :
    handle_idle s now (some pts) =
      some ⟨{ camStep s with trails := appendFrame s.maxlen s.trails pts
                             lastTime := now }, true, none⟩ := by
  unfold handle_idle
  rw [if_neg (by simp [hp]), if_pos hgt]

theorem handle_idle_exhausted {s : ViewerState} {now : ℚ}
    (hp : s.paused = false) (hgt : now - s.lastTime > 1 / s.frameRate) :
    handle_idle s now none = none := by
  unfold handle_idle
  rw [if_neg (by simp [hp]), if_pos hgt]

theorem handle_idle_sleep {s : ViewerState} {now : ℚ} (hp : s.paused = false)
    (hle : ¬ now - s.lastTime > 1 / s.frameRate) (fr : Option (List Point)) :
    handle_idle s now fr =
      some ⟨camStep s, false, some (1 / s.frameRate - (now - s.lastTime))⟩ := by
  unfold handle_idle
  rw [if_neg (by simp [hp]), if_neg hle]

/-- C3.  Resizing a trail buffer to a requested capacity `k` clamps the
capacity to `max 1 k` and rebuilds the buffer, keeping exactly the most
recent `min (max 1 k) s` points (a suffix, hence in original relative
order), never more than the new capacity; when the clamped capacity is
at least the current size all points are preserved unchanged.  Both
keyboard resize paths (`+` doubling, `-` halving) are instances of this
`resize` operation. -/
theorem resize_most_recent (s : ViewerState) (k i : ℕ) (t : List Point)
    (h : s.trails.get? i = some t) (hm : 1 ≤ s.maxlen) :
    (∃ t', (resize s k).trails.get? i = some t' ∧
      t'.length = min (max 1 k) t.length ∧
      t' <:+ t ∧
      t'.length ≤ max 1 k ∧
      (t.length ≤ max 1 k → t' = t)) ∧
    handle_keypress s Key.minus = some (resize s (s.maxlen / 2)) ∧
    handle_keypress s Key.plus = some (resize s (s.maxlen * 2)) := by
  refine ⟨⟨takeLast (max 1 k) t, ?_, ?_, takeLast_suffix _ _, ?_, ?_⟩, rfl, ?_⟩
  · have h' : s.trails[i]? = some t := by simpa [← List.get?_eq_getElem?] using h
    simp [resize, reset_trails, List.get?_eq_getElem?, List.getElem?_map, h']
  · exact takeLast_length _ _
  · rw [takeLast_length]; omega
  · exact fun hle => takeLast_of_length_le hle
  · have hmax : max 1 (s.maxlen * 2) = s.maxlen * 2 := by omega
    simp [handle_keypress, resize, hmax]

/-- Witness for `resize_most_recent` at a concrete state: two trails,
resize request 1. -/
theorem resize_most_recent_witness :
    (sampleTrailState.trails.get? 0 = some [[1, 2, 3], [4, 5, 6]] ∧
      1 ≤ sampleTrailState.maxlen) ∧
    ((∃ t', (resize sampleTrailState 1).trails.get? 0 = some t' ∧
      t'.length = min (max 1 1) ([[1, 2, 3], [4, 5, 6]] : List Point).length ∧
      t' <:+ [[1, 2, 3], [4, 5, 6]] ∧
      t'.length ≤ max 1 1 ∧
      (([[1, 2, 3], [4, 5, 6]] : List Point).length ≤ max 1 1 →
        t' = [[1, 2, 3], [4, 5, 6]])) ∧
    handle_keypress sampleTrailState Key.minus =
      some (resize sampleTrailState (sampleTrailState.maxlen / 2)) ∧
    handle_keypress sampleTrailState Key.plus =
      some (resize sampleTrailState (sampleTrailState.maxlen * 2))) :=
  ⟨⟨by decide, by decide⟩,
    resize_most_recent sampleTrailState 1 0 [[1, 2, 3], [4, 5, 6]]
      (by decide) (by decide)⟩

/-- C2 counterexample.  At the exact boundary `elapsed = 1 / frame_rate`
(state fresh from `Viewer.init 1 1`, tick at `now = 1`), the claim
requires a frame pull, but the code's strict comparison
`elapsed > 1.0 / frame_rate` takes the sleep branch: no frame is pulled
and the trails are unchanged. -/
theorem playback_boundary_counterexample :
    ((1 : ℚ) - (Viewer.init 1 1).lastTime ≥ 1 / (Viewer.init 1 1).frameRate) ∧
    (handle_idle (Viewer.init 1 1) 1 (some [[0, 0, 0, 0]])).map IdleResult.pulled =
      some false ∧
    (handle_idle (Viewer.init 1 1) 1 (some [[0, 0, 0, 0]])).map
      (fun r => r.state.trails) = some [[]] ∧
    (handle_idle (Viewer.init 1 1) 1 (some [[0, 0, 0, 0]])).map IdleResult.slept =
      some (some 0) := by
  have hs : handle_idle (Viewer.init 1 1) 1 (some [[0, 0, 0, 0]]) =
      some ⟨camStep (Viewer.init 1 1), false,
        some (1 / (Viewer.init 1 1).frameRate - ((1 : ℚ) - (Viewer.init 1 1).lastTime))⟩ :=
    handle_idle_sleep (by rw [Viewer_init_eq]) (by rw [Viewer_init_eq]; norm_num) _
  refine ⟨by rw [Viewer_init_eq]; norm_num, ?_, ?_, ?_⟩
  · rw [hs]; rfl
  · rw [hs, Viewer_init_eq]; rfl
  · rw [hs, Viewer_init_eq]
    norm_num

/-- C2 (amended: the pull condition is the strict
`elapsed > 1 / frame_rate`, not `≥`).  On an unpaused tick with
`elapsed > 1 / frame_rate`, exactly one frame is pulled, its points are
appended to the trail buffers, `last_advance_time` becomes `now` and no
sleep happens (an exhausted source ends the session); otherwise no frame
is pulled and the thread sleeps `1 / frame_rate - elapsed`. -/
theorem playback_pacing (s : ViewerState) (now : ℚ) (pts : List Point)
    (hp : s.paused = false) (hf : 0 < s.frameRate) :
    (now - s.lastTime > 1 / s.frameRate →
      handle_idle s now (some pts) =
        some ⟨{ camStep s with
                  trails := appendFrame s.maxlen s.trails pts
                  lastTime := now }, true, none⟩ ∧
      handle_idle s now none = none) ∧
    (¬ now - s.lastTime > 1 / s.frameRate →
      ∀ fr, handle_idle s now fr =
        some ⟨camStep s, false, some (1 / s.frameRate - (now - s.lastTime))⟩) := by
  refine ⟨fun hgt => ⟨handle_idle_pull pts hp hgt, handle_idle_exhausted hp hgt⟩,
    fun hle fr => handle_idle_sleep hp hle fr⟩

/-- Witness for `playback_pacing`: a fresh session ticked at `now = 2`
pulls the single point of its frame, and ticked at `now = 0` sleeps a
full frame interval. -/
theorem playback_pacing_witness :
    ((Viewer.init 1 1).paused = false ∧ 0 < (Viewer.init 1 1).frameRate) ∧
    (((2 : ℚ) - (Viewer.init 1 1).lastTime > 1 / (Viewer.init 1 1).frameRate →
      handle_idle (Viewer.init 1 1) 2 (some [[1, 2, 3, 4]]) =
        some ⟨{ camStep (Viewer.init 1 1) with
                  trails := appendFrame (Viewer.init 1 1).maxlen
                    (Viewer.init 1 1).trails [[1, 2, 3, 4]]
                  lastTime := 2 }, true, none⟩ ∧
      handle_idle (Viewer.init 1 1) 2 none = none) ∧
    (¬ (2 : ℚ) - (Viewer.init 1 1).lastTime > 1 / (Viewer.init 1 1).frameRate →
      ∀ fr, handle_idle (Viewer.init 1 1) 2 fr =
        some ⟨camStep (Viewer.init 1 1), false,
          some (1 / (Viewer.init 1 1).frameRate - ((2 : ℚ) - (Viewer.init 1 1).lastTime))⟩)) :=
  ⟨⟨by rw [Viewer_init_eq], by rw [Viewer_init_eq]; norm_num⟩,
    playback_pacing (Viewer.init 1 1) 2 [[1, 2, 3, 4]] (by rw [Viewer_init_eq])
      (by rw [Viewer_init_eq]; norm_num)⟩

/-- C4 counterexample.  With a single marker, pressing the digit key 5
does not leave the state unchanged without error as claimed: the read
`self.visible[5]` is out of range and the session dies with an
IndexError (modelled as `none`). -/
theorem toggle_out_of_range_counterexample :
    handle_keypress (Viewer.init 1 1) (Key.digit ⟨5, by decide⟩) = none ∧
    ∀ s', handle_keypress (Viewer.init 1 1) (Key.digit ⟨5, by decide⟩) ≠ some s' := by
  refine ⟨by decide, ?_⟩
  intro s' hs'
  rw [show handle_keypress (Viewer.init 1 1) (Key.digit ⟨5, by decide⟩) = none
    from by decide] at hs'
  exact Option.noConfusion hs'

/-- C4 (amended: a visibility-toggle index at or beyond the marker count
is not ignored; it raises an index error that ends the session). -/
theorem toggle_out_of_range_errors (s : ViewerState) (d : Fin 10)
    (h : s.visible.length ≤ d.val) :
    handle_keypress s (Key.digit d) = none := by
  simp [handle_keypress, toggleVisible, List.get?_eq_getElem?,
    List.getElem?_eq_none h]

/-- Witness for `toggle_out_of_range_errors` on a one-marker session. -/
theorem toggle_out_of_range_errors_witness :
    (Viewer.init 1 1).visible.length ≤ (7 : Fin 10).val ∧
    handle_keypress (Viewer.init 1 1) (Key.digit 7) = none :=
  ⟨by decide, toggle_out_of_range_errors (Viewer.init 1 1) 7 (by decide)⟩

/-- C5 counterexample.  Construction with frame rate `-1 ≤ 0` succeeds
and yields a fully formed session state storing the invalid rate: there
is no `InvalidFrameRate` failure at construction. -/
theorem invalid_frame_rate_counterexample :
    ((-1 : ℚ) ≤ 0) ∧
    (Viewer.init (-1) 2).frameRate = -1 ∧
    (Viewer.init (-1) 2).visible = [true, true] ∧
    (Viewer.init (-1) 2).maxlen = 1 ∧
    (Viewer.init (-1) 2).paused = false := by
  refine ⟨by norm_num, by decide, by decide, by decide, by decide⟩

/-- C5 (amended: construction performs no frame-rate validation; it
succeeds for every reported rate, storing it as given, and the session
starts with one-slot trails, all markers visible and playback
running). -/
theorem init_unvalidated (f : ℚ) (n : ℕ) :
    (Viewer.init f n).frameRate = f ∧
    (Viewer.init f n).visible = List.replicate n true ∧
    (Viewer.init f n).trails = List.replicate n [] ∧
    (Viewer.init f n).maxlen = 1 ∧
    (Viewer.init f n).paused = false := by
  refine ⟨rfl, rfl, ?_, rfl, rfl⟩
  simp [Viewer.init, reset_trails, takeLast]

/-- C6 counterexample.  On an 800 times 600 surface the code's
orthographic viewports are 266 wide (`w / 2` with `w = 533`), while the
claim requires `W - leftWidth = 267`. -/
theorem viewports_counterexample :
    orthoViewports 800 600 =
      [⟨533, 0, 266, 200⟩, ⟨533, 200, 266, 200⟩, ⟨533, 400, 266, 200⟩] ∧
    800 - leftWidth 800 = 267 ∧ (266 : ℕ) ≠ 267 := by
  decide

/-- C6 (amended: each orthographic viewport is `floor(leftWidth / 2)`
wide, not `W - leftWidth`; the two agree at 900 times 600 but not in
general).  The perspective viewport is `(0, 0, leftWidth, H)`, the three
orthographic viewports sit at `x = leftWidth`, `y = 0, h, 2h` with
`h = floor(H / 3)`, and the 900 times 600 instance is as claimed. -/
theorem viewports_layout (W H : ℕ) (i : ℕ) (hi : i < 3) :
    perspectiveViewport W H = ⟨0, 0, leftWidth W, H⟩ ∧
    (orthoViewports W H).get? i =
      some ⟨leftWidth W, i * thirdHeight H, leftWidth W / 2, thirdHeight H⟩ ∧
    perspectiveViewport 900 600 = ⟨0, 0, 600, 600⟩ ∧
    orthoViewports 900 600 =
      [⟨600, 0, 300, 200⟩, ⟨600, 200, 300, 200⟩, ⟨600, 400, 300, 200⟩] := by
  refine ⟨rfl, ?_, by decide, by decide⟩
  interval_cases i <;> simp [orthoViewports, two_mul]

/-- Witness for `viewports_layout` at the middle third of an 800 times
600 surface. -/
theorem viewports_layout_witness :
    (1 < 3) ∧
    (perspectiveViewport 800 600 = ⟨0, 0, leftWidth 800, 600⟩ ∧
    (orthoViewports 800 600).get? 1 =
      some ⟨leftWidth 800, 1 * thirdHeight 600, leftWidth 800 / 2, thirdHeight 600⟩ ∧
    perspectiveViewport 900 600 = ⟨0, 0, 600, 600⟩ ∧
    orthoViewports 900 600 =
      [⟨600, 0, 300, 200⟩, ⟨600, 200, 300, 200⟩, ⟨600, 400, 300, 200⟩]) :=
  ⟨by decide, viewports_layout 800 600 1 (by decide)⟩

theorem handle_mouse_movement_left {mexp : ℚ → ℚ} {s : ViewerState} (x y : ℤ)
    (hb : s.mouseButton = some (MouseButton.left, false, false)) :
    handle_mouse_movement mexp s x y = some
      { s with dPhi := 5 * ((y : ℚ) - ((s.height / 2 : ℕ) : ℚ)) / (s.height : ℚ)
               dTheta := 5 * ((x : ℚ) - ((s.width / 2 : ℕ) : ℚ)) / (s.width : ℚ) } := by
  unfold handle_mouse_movement
  rw [hb]
  rfl

/-- C7 counterexample.  With an odd window height 601, the code centres
the drag on `height / 2 = 300` (integer division), so a left drag to
`(400, 0)` gives `d_phi = 5 * (0 - 300) / 601`, which differs from the
claimed `5 * (0 - 601 / 2) / 601` computed from the exact centre. -/
theorem drag_center_counterexample :
    (handle_mouse_movement (fun q => q) oddHeightState 400 0).map ViewerState.dPhi =
      some (5 * ((0 : ℚ) - 300) / 601) ∧
    5 * ((0 : ℚ) - 300) / 601 ≠ 5 * ((0 : ℚ) - 601 / 2) / 601 := by
  constructor
  · rw [handle_mouse_movement_left 400 0 rfl]
    simp [oddHeightState, Viewer_init_eq]
  · norm_num

/-- C7 (amended: the drag centre is `(floor (W / 2), floor (H / 2))`, the
window centre under Python 2 integer division, rather than the exact
`(W / 2, H / 2)`; the two agree for even sizes such as 800 times 600).
A post-remap left drag to `(x, y)` sets
`d_phi = 5 * (y - floor (H / 2)) / H` and
`d_theta = 5 * (x - floor (W / 2)) / W` from the absolute cursor offset
alone, leaving the camera and trails untouched; at 800 times 600 with
cursor `(400, 240)` this gives `d_phi = -1/2`, `d_theta = 0`, and one
integration tick from `phi = 300` yields `phi = 299.5`. -/
theorem drag_velocities (mexp : ℚ → ℚ) (s : ViewerState) (x y : ℤ)
    (hb : s.mouseButton = some (MouseButton.left, false, false)) :
    (∃ s', handle_mouse_movement mexp s x y = some s' ∧
      s'.dPhi = 5 * ((y : ℚ) - ((s.height / 2 : ℕ) : ℚ)) / (s.height : ℚ) ∧
      s'.dTheta = 5 * ((x : ℚ) - ((s.width / 2 : ℕ) : ℚ)) / (s.width : ℚ) ∧
      s'.dRho = s.dRho ∧ s'.theta = s.theta ∧ s'.phi = s.phi ∧
      s'.rho = s.rho ∧ s'.trails = s.trails) ∧
    (handle_mouse_movement mexp centerDemoState 400 240).map ViewerState.dPhi =
      some (-(1 / 2)) ∧
    (handle_mouse_movement mexp centerDemoState 400 240).map ViewerState.dTheta =
      some 0 ∧
    (∀ s2 : ViewerState, s2.phi = 300 → s2.dPhi = -(1 / 2) →
      (camStep s2).phi = 599 / 2) := by
  refine ⟨⟨_, handle_mouse_movement_left x y hb, rfl, rfl, rfl, rfl, rfl, rfl, rfl⟩,
    ?_, ?_, ?_⟩
  · rw [handle_mouse_movement_left 400 240 rfl]
    simp [centerDemoState, Viewer_init_eq]
    norm_num
  · rw [handle_mouse_movement_left 400 240 rfl]
    simp [centerDemoState, Viewer_init_eq]
  · intro s2 h1 h2
    simp [camStep, h1, h2]
    norm_num

/-- Witness for `drag_velocities` on the default 800 times 600 window. -/
theorem drag_velocities_witness :
    centerDemoState.mouseButton = some (MouseButton.left, false, false) ∧
    ((∃ s', handle_mouse_movement (fun q => q) centerDemoState 100 160 = some s' ∧
      s'.dPhi = 5 * ((160 : ℚ) - ((centerDemoState.height / 2 : ℕ) : ℚ)) /
        (centerDemoState.height : ℚ) ∧
      s'.dTheta = 5 * ((100 : ℚ) - ((centerDemoState.width / 2 : ℕ) : ℚ)) /
        (centerDemoState.width : ℚ) ∧
      s'.dRho = centerDemoState.dRho ∧ s'.theta = centerDemoState.theta ∧
      s'.phi = centerDemoState.phi ∧ s'.rho = centerDemoState.rho ∧
      s'.trails = centerDemoState.trails) ∧
    (handle_mouse_movement (fun q => q) centerDemoState 400 240).map ViewerState.dPhi =
      some (-(1 / 2)) ∧
    (handle_mouse_movement (fun q => q) centerDemoState 400 240).map ViewerState.dTheta =
      some 0 ∧
    (∀ s2 : ViewerState, s2.phi = 300 → s2.dPhi = -(1 / 2) →
      (camStep s2).phi = 599 / 2)) :=
  ⟨rfl, drag_velocities (fun q => q) centerDemoState 100 160 rfl⟩

/-- C8.  On a paused tick, `handle_idle` pulls no frame and performs no
sleep, yet the camera integration `theta += d_theta; phi += d_phi;
rho /= d_rho` still runs, producing exactly the camera values an
unpaused tick at the same instant would produce. -/
theorem paused_tick (s : ViewerState) (now : ℚ) (fr : Option (List Point))
    (hp : s.paused = true) :
    handle_idle s now fr = some ⟨camStep s, false, none⟩ ∧
    ((camStep s).theta = s.theta + s.dTheta ∧ (camStep s).phi = s.phi + s.dPhi ∧
      (camStep s).rho = s.rho / s.dRho ∧ (camStep s).trails = s.trails) ∧
    (∀ r, handle_idle { s with paused := false } now fr = some r →
      r.state.theta = (camStep s).theta ∧ r.state.phi = (camStep s).phi ∧
      r.state.rho = (camStep s).rho) := by
  refine ⟨handle_idle_of_paused now fr hp, ⟨rfl, rfl, rfl, rfl⟩, ?_⟩
  intro r hr
  by_cases hgt : now - ({ s with paused := false } : ViewerState).lastTime >
      1 / ({ s with paused := false } : ViewerState).frameRate
  · cases fr with
    | none =>
        rw [handle_idle_exhausted rfl hgt] at hr
        exact absurd hr (by simp)
    | some pts =>
        rw [handle_idle_pull pts rfl hgt] at hr
        injection hr with hr1
        subst hr1
        exact ⟨rfl, rfl, rfl⟩
  · rw [handle_idle_sleep rfl hgt fr] at hr
    injection hr with hr1
    subst hr1
    exact ⟨rfl, rfl, rfl⟩

/-- Witness for `paused_tick` on a concrete paused state with live drag
velocities. -/
theorem paused_tick_witness :
    pausedDemoState.paused = true ∧
    (handle_idle pausedDemoState 5 (some [[1, 2, 3]]) =
      some ⟨camStep pausedDemoState, false, none⟩ ∧
    ((camStep pausedDemoState).theta = pausedDemoState.theta + pausedDemoState.dTheta ∧
      (camStep pausedDemoState).phi = pausedDemoState.phi + pausedDemoState.dPhi ∧
      (camStep pausedDemoState).rho = pausedDemoState.rho / pausedDemoState.dRho ∧
      (camStep pausedDemoState).trails = pausedDemoState.trails) ∧
    (∀ r, handle_idle { pausedDemoState with paused := false } 5 (some [[1, 2, 3]]) =
        some r →
      r.state.theta = (camStep pausedDemoState).theta ∧
      r.state.phi = (camStep pausedDemoState).phi ∧
      r.state.rho = (camStep pausedDemoState).rho)) :=
  ⟨rfl, paused_tick pausedDemoState 5 (some [[1, 2, 3]]) rfl⟩

/-! Facts about how the handlers treat the visibility mask: no handler
reads it except the digit toggle and the render submission, and no
handler writes it except the digit toggle. -/

theorem visReplace_mouseButton (s : ViewerState) (v : List Bool) :
    (visReplace s v).mouseButton = s.mouseButton := rfl

theorem visReplace_paused (s : ViewerState) (v : List Bool) :
    (visReplace s v).paused = s.paused := rfl

theorem visReplace_lastTime (s : ViewerState) (v : List Bool) :
    (visReplace s v).lastTime = s.lastTime := rfl

theorem visReplace_frameRate (s : ViewerState) (v : List Bool) :
    (visReplace s v).frameRate = s.frameRate := rfl

theorem get?_none_of_len_le {l : List α} {i : ℕ} (h : l.length ≤ i) :
    l.get? i = none := by
  rw [List.get?_eq_getElem?]
  exact List.getElem?_eq_none h

theorem len_le_of_get?_none {l : List α} {i : ℕ} (h : l.get? i = none) :
    l.length ≤ i := by
  rw [List.get?_eq_getElem?] at h
  exact List.getElem?_eq_none_iff.1 h

theorem lt_of_get?_some {l : List α} {i : ℕ} {a : α} (h : l.get? i = some a) :
    i < l.length := by
  by_contra hc
  rw [get?_none_of_len_le (by omega)] at h
  cases h

theorem toggleVisible_of_get?_none {v : List Bool} {i : ℕ}
    (h : v.get? i = none) : toggleVisible v i = none := by
  unfold toggleVisible
  rw [h]

theorem toggleVisible_of_get?_some {v : List Bool} {i : ℕ} {b : Bool}
    (h : v.get? i = some b) : toggleVisible v i = some (v.set i (xor b true)) := by
  unfold toggleVisible
  rw [h]

theorem handle_special_keypress_visible (s : ViewerState) (k : SpecialKey) :
    (handle_special_keypress s k).visible = s.visible := by
  cases k <;> rfl

theorem handle_mouse_movement_visible {mexp : ℚ → ℚ} {s t : ViewerState}
    {x y : ℤ} (h : handle_mouse_movement mexp s x y = some t) :
    t.visible = s.visible := by
  unfold handle_mouse_movement at h
  rcases hmb : s.mouseButton with _ | ⟨b0, ctrl, alt⟩ <;> rw [hmb] at h
  · cases h
  · injection h with h1
    subst h1
    cases b0 <;> cases ctrl <;> cases alt <;> rfl

theorem handle_idle_state_visible {s : ViewerState} {now : ℚ}
    {fr : Option (List Point)} {r : IdleResult}
    (h : handle_idle s now fr = some r) : r.state.visible = s.visible := by
  unfold handle_idle at h
  split_ifs at h
  · injection h with h1; subst h1; rfl
  · cases fr with
    | none => cases h
    | some pts => injection h with h1; subst h1; rfl
  · injection h with h1; subst h1; rfl

theorem handle_keypress_visible_high {s t : ViewerState} {k : Key}
    (h : handle_keypress s k = some t) (i : ℕ) (hi : 10 ≤ i) :
    t.visible.get? i = s.visible.get? i := by
  cases k with
  | q => cases h
  | digit d =>
      rw [show handle_keypress s (Key.digit d) =
        (toggleVisible s.visible d.val).map
          (fun v => { s with visible := v }) from rfl] at h
      rcases hv : s.visible.get? d.val with _ | b
      · rw [toggleVisible_of_get?_none hv] at h
        cases h
      · rw [toggleVisible_of_get?_some hv] at h
        injection h with h1
        subst h1
        show (s.visible.set d.val (xor b true)).get? i = s.visible.get? i
        rw [List.get?_eq_getElem?, List.get?_eq_getElem?]
        exact List.getElem?_set_ne (by omega)
  | p => injection h with h1; subst h1; rfl
  | plus => injection h with h1; subst h1; rfl
  | minus => injection h with h1; subst h1; rfl
  | other => injection h with h1; subst h1; rfl

theorem step_visible_high {mexp : ℚ → ℚ} {e : Event} {s t : ViewerState}
    (h : step mexp e s = some t) (i : ℕ) (hi : 10 ≤ i) :
    t.visible.get? i = s.visible.get? i := by
  cases e with
  | keypress k => exact handle_keypress_visible_high h i hi
  | special k =>
      injection h with h1
      subst h1
      rw [handle_special_keypress_visible]
  | mouseDown b ctrl alt x y =>
      have h2 : handle_mouse_movement mexp
          { s with mouseButton := some (b, ctrl, alt) } x y = some t := h
      rw [handle_mouse_movement_visible h2]
  | mouseUp => injection h with h1; subst h1; rfl
  | mouseMove x y => rw [handle_mouse_movement_visible h]
  | reshape w h2 => injection h with h1; subst h1; rfl
  | idle now fr =>
      rcases hr : handle_idle s now fr with _ | r
      · rw [show step mexp (Event.idle now fr) s =
          (handle_idle s now fr).map IdleResult.state from rfl, hr] at h
        cases h
      · rw [show step mexp (Event.idle now fr) s =
          (handle_idle s now fr).map IdleResult.state from rfl, hr] at h
        injection h with h1
        subst h1
        rw [handle_idle_state_visible hr]

theorem run_visible_high {mexp : ℚ → ℚ} {es : List Event} {s t : ViewerState}
    (h : run mexp es s = some t) (i : ℕ) (hi : 10 ≤ i) :
    t.visible.get? i = s.visible.get? i := by
  induction es generalizing s with
  | nil =>
      injection h with h1
      subst h1
      rfl
  | cons e rest ih =>
      unfold run at h
      rcases hstep : step mexp e s with _ | s1 <;> rw [hstep] at h
      · cases h
      · rw [ih h]
        exact step_visible_high hstep i hi

/-- C10.  Every marker is visible at construction, and the only
visibility mutation in the whole event loop is the digit-key toggle of
indices 0 to 9, so a marker with index at least 10 is still visible
after every possible event sequence of the session. -/
theorem high_index_always_visible (mexp : ℚ → ℚ) (f : ℚ) (n : ℕ)
    (es : List Event) (s : ViewerState)
    (h : run mexp es (Viewer.init f n) = some s) (i : ℕ) (hi : 10 ≤ i) :
    (Viewer.init f n).visible = List.replicate n true ∧
    s.visible.get? i = (List.replicate n true : List Bool).get? i ∧
    (i < n → s.visible.get? i = some true) := by
  have h1 : (Viewer.init f n).visible = List.replicate n true := by
    rw [Viewer_init_eq]
  have h2 := run_visible_high h i hi
  rw [h1] at h2
  refine ⟨h1, h2, fun hin => ?_⟩
  rw [h2, List.get?_eq_getElem?]
  simp [hin]

/-- Witness for `high_index_always_visible`: toggling marker 3 in an
eleven-marker session leaves marker 10 visible. -/
theorem high_index_always_visible_witness :
    (run (fun q => q) [Event.keypress (Key.digit 3)] (Viewer.init 1 11) =
      some { Viewer.init 1 11 with
               visible := (List.replicate 11 true).set 3 false } ∧
      (10 : ℕ) ≤ 10) ∧
    ((Viewer.init 1 11).visible = List.replicate 11 true ∧
      ({ Viewer.init 1 11 with
           visible := (List.replicate 11 true).set 3 false } :
        ViewerState).visible.get? 10 =
        (List.replicate 11 true : List Bool).get? 10 ∧
      (10 < 11 →
        ({ Viewer.init 1 11 with
             visible := (List.replicate 11 true).set 3 false } :
          ViewerState).visible.get? 10 = some true)) :=
  ⟨⟨by decide, by decide⟩,
    high_index_always_visible (fun q => q) 1 11 [Event.keypress (Key.digit 3)]
      _ (by decide) 10 (by decide)⟩

/-! Commutation of every handler with a visibility-mask replacement:
the machinery behind the trail-independence claim. -/

theorem handle_special_keypress_visReplace (s : ViewerState) (v : List Bool)
    (k : SpecialKey) :
    handle_special_keypress (visReplace s v) k =
      visReplace (handle_special_keypress s k) v := by
  cases k <;> rfl

theorem handle_mouse_movement_visReplace (mexp : ℚ → ℚ) (s : ViewerState)
    (v : List Bool) (x y : ℤ) :
    handle_mouse_movement mexp (visReplace s v) x y =
      (handle_mouse_movement mexp s x y).map (fun t => visReplace t v) := by
  unfold handle_mouse_movement
  rw [visReplace_mouseButton]
  rcases s.mouseButton with _ | ⟨b0, ctrl, alt⟩
  · rfl
  · cases b0 <;> cases ctrl <;> cases alt <;> rfl

theorem handle_mouse_button_visReplace (mexp : ℚ → ℚ) (s : ViewerState)
    (v : List Bool) (b : MouseButton) (ctrl alt : Bool) (st : ButtonState)
    (x y : ℤ) :
    handle_mouse_button mexp (visReplace s v) b ctrl alt st x y =
      (handle_mouse_button mexp s b ctrl alt st x y).map
        (fun t => visReplace t v) := by
  cases st with
  | up => rfl
  | down =>
      show handle_mouse_movement mexp
        (visReplace { s with mouseButton := some (b, ctrl, alt) } v) x y = _
      rw [handle_mouse_movement_visReplace]
      rfl

theorem handle_idle_visReplace (s : ViewerState) (v : List Bool) (now : ℚ)
    (fr : Option (List Point)) :
    handle_idle (visReplace s v) now fr =
      (handle_idle s now fr).map
        (fun r => ⟨visReplace r.state v, r.pulled, r.slept⟩) := by
  unfold handle_idle
  rw [visReplace_paused, visReplace_lastTime, visReplace_frameRate]
  by_cases hp : s.paused = true
  · rw [if_pos hp, if_pos hp]; rfl
  · rw [if_neg hp, if_neg hp]
    by_cases hgt : now - s.lastTime > 1 / s.frameRate
    · rw [if_pos hgt, if_pos hgt]
      cases fr <;> rfl
    · rw [if_neg hgt, if_neg hgt]
      rfl

theorem handle_keypress_visReplace (s : ViewerState) (v : List Bool) (k : Key)
    (hlen : v.length = s.visible.length) :
    (handle_keypress s k = none → handle_keypress (visReplace s v) k = none) ∧
    (∀ t, handle_keypress s k = some t → ∃ w, w.length = t.visible.length ∧
      handle_keypress (visReplace s v) k = some (visReplace t w)) := by
  cases k with
  | q => exact ⟨fun _ => rfl, fun t ht => Option.noConfusion ht⟩
  | digit d =>
      have hL : handle_keypress s (Key.digit d) =
          (toggleVisible s.visible d.val).map
            (fun v2 => { s with visible := v2 }) := rfl
      have hR : handle_keypress (visReplace s v) (Key.digit d) =
          (toggleVisible v d.val).map
            (fun v2 => { visReplace s v with visible := v2 }) := rfl
      rcases hv : s.visible.get? d.val with _ | b
      · have hd : s.visible.length ≤ d.val := len_le_of_get?_none hv
        have hv2 : v.get? d.val = none := get?_none_of_len_le (by omega)
        refine ⟨fun _ => ?_, fun t ht => ?_⟩
        · rw [hR, toggleVisible_of_get?_none hv2]
          rfl
        · rw [hL, toggleVisible_of_get?_none hv] at ht
          exact Option.noConfusion ht
      · have hd : d.val < s.visible.length := lt_of_get?_some hv
        rcases hv2 : v.get? d.val with _ | b2
        · exact absurd (len_le_of_get?_none hv2) (by omega)
        refine ⟨fun h0 => ?_, fun t ht => ?_⟩
        · rw [hL, toggleVisible_of_get?_some hv] at h0
          exact Option.noConfusion h0
        · rw [hL, toggleVisible_of_get?_some hv] at ht
          injection ht with ht1
          subst ht1
          refine ⟨v.set d.val (xor b2 true), ?_, ?_⟩
          · simp [hlen]
          · rw [hR, toggleVisible_of_get?_some hv2]
            rfl
  | p =>
      refine ⟨fun h0 => Option.noConfusion h0, fun t ht => ?_⟩
      injection ht with ht1
      subst ht1
      exact ⟨v, hlen, rfl⟩
  | plus =>
      refine ⟨fun h0 => Option.noConfusion h0, fun t ht => ?_⟩
      injection ht with ht1
      subst ht1
      exact ⟨v, hlen, rfl⟩
  | minus =>
      refine ⟨fun h0 => Option.noConfusion h0, fun t ht => ?_⟩
      injection ht with ht1
      subst ht1
      exact ⟨v, hlen, rfl⟩
  | other =>
      refine ⟨fun h0 => Option.noConfusion h0, fun t ht => ?_⟩
      injection ht with ht1
      subst ht1
      exact ⟨v, hlen, rfl⟩

theorem step_visReplace (mexp : ℚ → ℚ) (e : Event) (s : ViewerState)
    (v : List Bool) (hlen : v.length = s.visible.length) :
    (step mexp e s = none → step mexp e (visReplace s v) = none) ∧
    (∀ t, step mexp e s = some t → ∃ w, w.length = t.visible.length ∧
      step mexp e (visReplace s v) = some (visReplace t w)) := by
  cases e with
  | keypress k => exact handle_keypress_visReplace s v k hlen
  | special k =>
      refine ⟨fun h0 => Option.noConfusion h0, fun t ht => ?_⟩
      injection ht with ht1
      subst ht1
      refine ⟨v, ?_, ?_⟩
      · rw [handle_special_keypress_visible]
        exact hlen
      · show some (handle_special_keypress (visReplace s v) k) = _
        rw [handle_special_keypress_visReplace]
  | mouseDown b ctrl alt x y =>
      have hc := handle_mouse_button_visReplace mexp s v b ctrl alt .down x y
      constructor
      · intro h0
        have h0' : handle_mouse_button mexp s b ctrl alt .down x y = none := h0
        show handle_mouse_button mexp (visReplace s v) b ctrl alt .down x y = none
        rw [hc, h0']
        rfl
      · intro t ht
        have ht' : handle_mouse_button mexp s b ctrl alt .down x y = some t := ht
        refine ⟨v, ?_, ?_⟩
        · rw [handle_mouse_movement_visible
            (show handle_mouse_movement mexp
              { s with mouseButton := some (b, ctrl, alt) } x y = some t from ht')]
          exact hlen
        · show handle_mouse_button mexp (visReplace s v) b ctrl alt .down x y = _
          rw [hc, ht']
          rfl
  | mouseUp =>
      refine ⟨fun h0 => Option.noConfusion h0, fun t ht => ?_⟩
      injection ht with ht1
      subst ht1
      exact ⟨v, hlen, rfl⟩
  | mouseMove x y =>
      have hc := handle_mouse_movement_visReplace mexp s v x y
      constructor
      · intro h0
        have h0' : handle_mouse_movement mexp s x y = none := h0
        show handle_mouse_movement mexp (visReplace s v) x y = none
        rw [hc, h0']
        rfl
      · intro t ht
        have ht' : handle_mouse_movement mexp s x y = some t := ht
        refine ⟨v, ?_, ?_⟩
        · rw [handle_mouse_movement_visible ht']
          exact hlen
        · show handle_mouse_movement mexp (visReplace s v) x y = _
          rw [hc, ht']
          rfl
  | reshape w h2 =>
      refine ⟨fun h0 => Option.noConfusion h0, fun t ht => ?_⟩
      injection ht with ht1
      subst ht1
      exact ⟨v, hlen, rfl⟩
  | idle now fr =>
      have hc := handle_idle_visReplace s v now fr
      constructor
      · intro h0
        have h0' : (handle_idle s now fr).map IdleResult.state = none := h0
        show (handle_idle (visReplace s v) now fr).map IdleResult.state = none
        rcases hi2 : handle_idle s now fr with _ | r
        · rw [hc, hi2]
          rfl
        · rw [hi2] at h0'
          exact Option.noConfusion h0'
      · intro t ht
        have ht' : (handle_idle s now fr).map IdleResult.state = some t := ht
        rcases hi2 : handle_idle s now fr with _ | r
        · rw [hi2] at ht'
          exact Option.noConfusion ht'
        · rw [hi2] at ht'
          injection ht' with ht1
          subst ht1
          refine ⟨v, ?_, ?_⟩
          · rw [handle_idle_state_visible hi2]
            exact hlen
          · show (handle_idle (visReplace s v) now fr).map IdleResult.state = _
            rw [hc, hi2]
            rfl

theorem run_visReplace (mexp : ℚ → ℚ) (es : List Event) (s : ViewerState)
    (v : List Bool) (hlen : v.length = s.visible.length) :
    (run mexp es s = none → run mexp es (visReplace s v) = none) ∧
    (∀ t, run mexp es s = some t → ∃ w, w.length = t.visible.length ∧
      run mexp es (visReplace s v) = some (visReplace t w)) := by
  induction es generalizing s v with
  | nil =>
      refine ⟨fun h0 => Option.noConfusion h0, fun t ht => ?_⟩
      injection ht with ht1
      subst ht1
      exact ⟨v, hlen, rfl⟩
  | cons e rest ih =>
      have hstep := step_visReplace mexp e s v hlen
      constructor
      · intro h0
        unfold run at h0 ⊢
        rcases h1 : step mexp e s with _ | s1
        · rw [hstep.1 h1]
        · rw [h1] at h0
          obtain ⟨w1, hw1, hsw⟩ := hstep.2 s1 h1
          rw [hsw]
          exact (ih s1 w1 hw1).1 h0
      · intro t ht
        unfold run at ht ⊢
        rcases h1 : step mexp e s with _ | s1
        · rw [h1] at ht
          exact Option.noConfusion ht
        · rw [h1] at ht
          obtain ⟨w1, hw1, hsw⟩ := hstep.2 s1 h1
          obtain ⟨w2, hw2, hrw⟩ := (ih s1 w1 hw1).2 t ht
          refine ⟨w2, hw2, ?_⟩
          rw [hsw]
          exact hrw

/-- C9.  Trail accumulation is independent of the visibility mask:
running any event sequence yields the same trails (and the same
termination behaviour) as running it with every marker forced visible
throughout, so hiding a marker never changes its trail contents.
Visibility only selects which markers `render_model` submits: a marker
is submitted exactly when its index carries a `true` flag. -/
theorem hidden_markers_accumulate (mexp : ℚ → ℚ) (es : List Event)
    (s : ViewerState) :
    (run mexp es s).map ViewerState.trails =
      (run mexp es (visReplace s (List.replicate s.visible.length true))).map
        ViewerState.trails ∧
    (∀ l, renderMarkers s = some l → ∀ i t,
      ((i, t) ∈ l ↔ s.trails.get? i = some t ∧ s.visible.get? i = some true)) := by
  constructor
  · have hlen : (List.replicate s.visible.length true : List Bool).length =
        s.visible.length := by simp
    rcases hr : run mexp es s with _ | t
    · rw [(run_visReplace mexp es s _ hlen).1 hr]
    · obtain ⟨w, hw, hrw⟩ := (run_visReplace mexp es s _ hlen).2 t hr
      rw [hrw]
      rfl
  · intro l hl i t
    unfold renderMarkers at hl
    split_ifs at hl with hle
    injection hl with hl1
    subst hl1
    rw [List.mem_filter, List.mk_mem_enum_iff_getElem?]
    constructor
    · rintro ⟨h1, h2⟩
      have h1' : s.trails.get? i = some t := by
        rw [List.get?_eq_getElem?]
        exact h1
      have hilt : i < s.trails.length := lt_of_get?_some h1'
      rcases hv : s.visible.get? i with _ | b
      · exact absurd (len_le_of_get?_none hv) (by omega)
      · have hb : b = true := by
          have h3 := h2
          rw [List.getD_eq_get?, hv] at h3
          simpa using h3
        subst hb
        exact ⟨h1', rfl⟩
    · rintro ⟨h1, h2⟩
      refine ⟨by rw [← List.get?_eq_getElem?]; exact h1, ?_⟩
      show s.visible.getD i false = true
      rw [List.getD_eq_get?, h2]
      rfl

/-- Witness for `hidden_markers_accumulate`: a two-marker state with
marker 1 hidden, ticked once; marker 0 is submitted and marker 1 is
not, while both trails advance identically to the all-visible run. -/
theorem hidden_markers_accumulate_witness :
    (run (fun q => q) [Event.idle 1 (some [[1, 2, 3], [4, 5, 6]])]
        hiddenDemoState).map ViewerState.trails =
      (run (fun q => q) [Event.idle 1 (some [[1, 2, 3], [4, 5, 6]])]
        (visReplace hiddenDemoState
          (List.replicate hiddenDemoState.visible.length true))).map
        ViewerState.trails ∧
    (renderMarkers hiddenDemoState = some [(0, [[7, 8, 9]])] ∧
      ((0, ([[7, 8, 9]] : List Point)) ∈ [((0 : ℕ), ([[7, 8, 9]] : List Point))] ↔
        hiddenDemoState.trails.get? 0 = some [[7, 8, 9]] ∧
        hiddenDemoState.visible.get? 0 = some true) ∧
      ¬ ((1, ([[10, 11, 12]] : List Point)) ∈
          [((0 : ℕ), ([[7, 8, 9]] : List Point))])) :=
  ⟨(hidden_markers_accumulate (fun q => q)
      [Event.idle 1 (some [[1, 2, 3], [4, 5, 6]])] hiddenDemoState).1,
    by decide,
    (hidden_markers_accumulate (fun q => q)
      [Event.idle 1 (some [[1, 2, 3], [4, 5, 6]])] hiddenDemoState).2
      [(0, [[7, 8, 9]])] (by decide) 0 [[7, 8, 9]],
    by decide⟩

end C3D
